import Mathlib

/-!
Verification development for the daylaunch plan-generation pipeline
(planning engine, pool service, category/plan services).

Modelling conventions for the shallow embedding of the TypeScript source:

* JavaScript `Date` values are modelled as `Int` milliseconds since the
  Unix epoch, with the runtime's local time zone taken to be UTC (so
  `setHours` arithmetic is plain offset arithmetic from the day start and
  `toISOString().split('T')[0]` denotes the UTC calendar day).
* An invalid `Date` (NaN time value, as produced by `setHours(NaN, …)`)
  is modelled by the `JsTime.invalid` constructor.
* JavaScript `Number(s)` is modelled on the integer-literal fragment
  (optional sign, decimal digits, empty/whitespace string ↦ 0); every
  other string is treated as NaN (`none`).  Fractional, hexadecimal and
  exponent forms are outside the modelled scope.
* `JSON.parse` is modelled by an executable recursive-descent parser over
  the JSON fragment actually exchanged with the model: objects, arrays,
  strings with the common single-character escapes, integer numerals,
  `true`/`false`/`null`.  `\uXXXX` escapes and non-integer numerals are
  outside the modelled scope (the parser rejects them).
* String case-lowering is modelled on the ASCII range (`Char.toLower`).
-/

/-! ## JavaScript string primitives -/

/-- Whitespace recognised by the JavaScript regex class `\s` and by
`String.prototype.trim` (ASCII fragment). -/
def isJsWs (c : Char) : Bool :=
  c = ' ' || c = '\t' || c = '\n' || c = '\r' || c = '\x0b' || c = '\x0c'

/-- Model of `String.prototype.trim` on a character list. -/
def jsTrimList (cs : List Char) : List Char :=
  ((cs.dropWhile isJsWs).reverse.dropWhile isJsWs).reverse

/-- Model of `String.prototype.trim`. -/
def jsTrim (s : String) : String :=
  ⟨jsTrimList s.toList⟩

/-- Model of `String.prototype.toLowerCase` (ASCII fragment). -/
def jsToLower (s : String) : String :=
  ⟨s.toList.map Char.toLower⟩

/-- Decimal digit run to a natural number; `none` when the run is empty or
contains a non-digit. -/
def digitsToNat : List Char → Option Nat
  | [] => none
  | cs => cs.foldl
      (fun acc c => acc.bind fun n =>
        if c.isDigit then some (n * 10 + (c.toNat - 48)) else none)
      (some 0)

/-- Model of JavaScript `Number(s)` on the integer-literal fragment:
leading/trailing whitespace ignored, the empty string is `0`, an optional
sign followed by decimal digits is that integer, everything else is NaN
(`none`).  Fraction/exponent/hex forms are outside the modelled scope. -/
def jsNumber (s : String) : Option Int :=
  match (jsTrim s).toList with
  | [] => some 0
  | '-' :: rest => (digitsToNat rest).map (fun n => -(n : Int))
  | '+' :: rest => (digitsToNat rest).map (fun n => (n : Int))
  | cs => (digitsToNat cs).map (fun n => (n : Int))

/-! ## JSON values and `JSON.parse` -/

/-- JSON values (numbers restricted to integers, see the module header). -/
inductive Json where
  | null : Json
  | bool : Bool → Json
  | num : Int → Json
  | str : String → Json
  | arr : List Json → Json
  | obj : List (String × Json) → Json
deriving Repr

/-- Whitespace accepted between JSON tokens by `JSON.parse`. -/
def isJsonWs (c : Char) : Bool :=
  c = ' ' || c = '\t' || c = '\n' || c = '\r'

/-- Drop inter-token whitespace. -/
def skipJsonWs (cs : List Char) : List Char :=
  cs.dropWhile isJsonWs

/-- Single-character JSON string escapes (`\uXXXX` outside modelled scope). -/
def jsonEscape (e : Char) : Option Char :=
  if e = 'n' then some '\n'
  else if e = 't' then some '\t'
  else if e = 'r' then some '\r'
  else if e = 'b' then some '\x08'
  else if e = 'f' then some '\x0c'
  else if e = '"' ∨ e = '\\' ∨ e = '/' then some e
  else none

/-- Consume the body of a JSON string literal after the opening quote,
returning the decoded characters and the remainder after the closing
quote. -/
def takeJsonString : List Char → Option (List Char × List Char)
  | [] => none
  | c :: rest =>
    if c = '"' then some ([], rest)
    else if c = '\\' then
      match rest with
      | [] => none
      | e :: rest' =>
        (jsonEscape e).bind fun ch =>
          (takeJsonString rest').map (fun p => (ch :: p.1, p.2))
    else
      (takeJsonString rest).map (fun p => (c :: p.1, p.2))

/-- Consume a JSON integer numeral (optional minus sign); rejects inputs
whose numeral continues with `.`, `e` or `E` (non-integer numerals are
outside the modelled scope). -/
def takeJsonNumber (cs : List Char) : Option (Int × List Char) :=
  let (neg, cs') := match cs with
    | '-' :: rest => (true, rest)
    | _ => (false, cs)
  let ds := cs'.takeWhile Char.isDigit
  let rest := cs'.dropWhile Char.isDigit
  match digitsToNat ds with
  | none => none
  | some n =>
    match rest with
    | '.' :: _ => none
    | 'e' :: _ => none
    | 'E' :: _ => none
    | _ => some (if neg then -(n : Int) else (n : Int), rest)

/-- Parser mode: a JSON value, an object body (just after `{`), the
remaining fields of an object, an array body (just after `[`), or the
remaining elements of an array. -/
inductive PMode where
  | top : PMode
  | objBody : PMode
  | objFields : List (String × Json) → PMode
  | arrBody : PMode
  | arrElems : List Json → PMode

/-- Recursive-descent JSON parser, written as a single function
structurally recursive on a fuel bound so that it evaluates inside the
kernel.  `top` parses one value; the other modes parse the interior of
objects and arrays. -/
def parseJsonStep : Nat → PMode → List Char → Option (Json × List Char)
  | 0, _, _ => none
  | fuel + 1, PMode.top, cs =>
    (match skipJsonWs cs with
     | [] => none
     | c :: rest =>
       if c = '{' then parseJsonStep fuel PMode.objBody rest
       else if c = '[' then parseJsonStep fuel PMode.arrBody rest
       else if c = '"' then
         (takeJsonString rest).map (fun p => (Json.str ⟨p.1⟩, p.2))
       else if c = 't' then
         match rest with
         | 'r' :: 'u' :: 'e' :: r => some (Json.bool true, r)
         | _ => none
       else if c = 'f' then
         match rest with
         | 'a' :: 'l' :: 's' :: 'e' :: r => some (Json.bool false, r)
         | _ => none
       else if c = 'n' then
         match rest with
         | 'u' :: 'l' :: 'l' :: r => some (Json.null, r)
         | _ => none
       else
         (takeJsonNumber (c :: rest)).map (fun p => (Json.num p.1, p.2)))
  | fuel + 1, PMode.objBody, cs =>
    (match skipJsonWs cs with
     | '}' :: rest => some (Json.obj [], rest)
     | _ => parseJsonStep fuel (PMode.objFields []) cs)
  | fuel + 1, PMode.objFields acc, cs =>
    (match skipJsonWs cs with
     | '"' :: rest =>
       match takeJsonString rest with
       | none => none
       | some (key, rest') =>
         match skipJsonWs rest' with
         | ':' :: rest'' =>
           match parseJsonStep fuel PMode.top rest'' with
           | none => none
           | some (v, rest3) =>
             match skipJsonWs rest3 with
             | ',' :: more => parseJsonStep fuel (PMode.objFields (acc ++ [(⟨key⟩, v)])) more
             | '}' :: more => some (Json.obj (acc ++ [(⟨key⟩, v)]), more)
             | _ => none
         | _ => none
     | _ => none)
  | fuel + 1, PMode.arrBody, cs =>
    (match skipJsonWs cs with
     | ']' :: rest => some (Json.arr [], rest)
     | _ => parseJsonStep fuel (PMode.arrElems []) cs)
  | fuel + 1, PMode.arrElems acc, cs =>
    (match parseJsonStep fuel PMode.top cs with
     | none => none
     | some (v, rest) =>
       match skipJsonWs rest with
       | ',' :: more => parseJsonStep fuel (PMode.arrElems (acc ++ [v])) more
       | ']' :: more => some (Json.arr (acc ++ [v]), more)
       | _ => none)

/-- Model of `JSON.parse`: parse one value and require that only
whitespace remains.  `none` models a thrown `SyntaxError`. -/
def jsonParse (s : String) : Option Json :=
  match parseJsonStep (2 * s.toList.length + 2) PMode.top s.toList with
  | none => none
  | some (j, rest) =>
    match skipJsonWs rest with
    | [] => some j
    | _ => none

/-! ## Response extraction (`parseLLMResponse`)

Source (part_002, `parseLLMResponse`):
the raw text is matched against the regex `/```(?:json)?\s*([\s\S]*?)```/`;
if it matches, group 1 is trimmed and `JSON.parse`d, otherwise the whole
trimmed text is `JSON.parse`d, and a parse exception yields `null`.
-/

/-- Characters up to (excluding) the first occurrence of a triple backtick
fence, or `none` when no fence occurs.  This is the lazy group
`([\s\S]*?)` followed by the closing fence. -/
def takeUntilFence : List Char → Option (List Char)
  | [] => none
  | c :: rest =>
    if c = '`' then
      match rest with
      | '`' :: '`' :: _ => some []
      | _ => (takeUntilFence rest).map (fun g => c :: g)
    else
      (takeUntilFence rest).map (fun g => c :: g)

/-- Regex-engine search for `/```(?:json)?\s*([\s\S]*?)```/`: try each start
position left to right; at a position starting with a fence, greedily skip
an optional `json` tag and whitespace, then lazily capture up to the next
fence; if no closing fence exists the whole match attempt fails and the
engine advances one position. -/
def findFence : List Char → Option (List Char)
  | [] => none
  | c :: rest =>
    match c :: rest with
    | '`' :: '`' :: '`' :: afterOpen =>
      let afterTag :=
        match afterOpen with
        | 'j' :: 's' :: 'o' :: 'n' :: r => r
        | _ => afterOpen
      let body := afterTag.dropWhile isJsWs
      match takeUntilFence body with
      | some grp => some grp
      | none => findFence rest
    | _ => findFence rest

/-- Model of `parseLLMResponse`: extract the fenced block (else the whole
text), trim, `JSON.parse`; `none` models the `null` returned on a parse
exception. -/
def parseLLMResponse (raw : String) : Option Json :=
  let jsonStr : List Char :=
    match findFence raw.toList with
    | some grp => jsTrimList grp
    | none => jsTrimList raw.toList
  jsonParse ⟨jsonStr⟩

/-! ## JavaScript value semantics on parsed JSON -/

/-- JavaScript truthiness of a parsed JSON value (`NaN` is not
representable in the modelled fragment). -/
def jsFalsy : Json → Bool
  | Json.null => true
  | Json.bool b => !b
  | Json.num n => n = 0
  | Json.str s => s = ""
  | Json.arr _ => false
  | Json.obj _ => false

/-- Property access `j.k` on a parsed JSON value: objects yield the value
of the *last* binding for the key (`JSON.parse` keeps the last duplicate),
everything else yields `undefined` (`none`). -/
def jsGetField : Json → String → Option Json
  | Json.obj fs, k => (fs.reverse.find? (fun f => f.1 = k)).map (·.2)
  | _, _ => none

/-- The guard `!parsed || !Array.isArray(parsed.tasks)` from `generatePlan`,
as the extracted entry list: `none` when the guard would throw. -/
def tasksArrOf (j : Json) : Option (List Json) :=
  if jsFalsy j then none
  else
    match jsGetField j "tasks" with
    | some (Json.arr l) => some l
    | _ => none

/-! ## Time handling (`timeToDate`) -/

/-- Milliseconds per day. -/
def msPerDay : Int := 86400000

/-- A JavaScript `Date` value: a valid timestamp or the invalid (NaN)
date. -/
inductive JsTime where
  | valid : Int → JsTime
  | invalid : JsTime
deriving DecidableEq, Repr

/-- UTC start of the calendar day containing `t`; this is
`new Date(t.toISOString().split('T')[0])` under the UTC convention. -/
def dayStartOf (t : Int) : Int :=
  msPerDay * Int.fdiv t msPerDay

/-- Split a character list at every occurrence of a separator, as
`String.prototype.split` does for a one-character separator. -/
def splitCharAux (sep : Char) : List Char → List Char → List (List Char)
  | [], acc => [acc.reverse]
  | c :: rest, acc =>
    if c = sep then acc.reverse :: splitCharAux sep rest []
    else splitCharAux sep rest (c :: acc)

/-- Model of `s.split(sep)` for a one-character separator. -/
def jsSplit (s : String) (sep : Char) : List String :=
  (splitCharAux sep s.toList []).map (fun cs => ⟨cs⟩)

/-- Model of `timeToDate(dateStr, timeStr)` (part_002 lines 263–280), with
`dayStart` the timestamp denoted by `dateStr` (UTC midnight).  The final
branch mirrors `timeStr.split(':').map(Number)` followed by
`setHours(h ?? 9, m ?? 0, 0, 0)`: a NaN hour or minute makes the date
invalid; a missing minute component defaults to `0` (and a missing hour
component would default to `9`, though `split` always yields at least one
part). -/
def timeToDate (dayStart : Int) (timeStr : String) : JsTime :=
  if timeStr = "" ∨ timeStr = "morning" then JsTime.valid (dayStart + 9 * 3600000)
  else if timeStr = "afternoon" then JsTime.valid (dayStart + 14 * 3600000)
  else if timeStr = "evening" then JsTime.valid (dayStart + 18 * 3600000)
  else
    let nums := (jsSplit timeStr ':').map jsNumber
    let h : Option Int := match nums.head? with
      | none => some 9
      | some v => v
    let m : Option Int := match nums.get? 1 with
      | none => some 0
      | some v => v
    match h, m with
    | some hv, some mv => JsTime.valid (dayStart + hv * 3600000 + mv * 60000)
    | _, _ => JsTime.invalid

/-- The scheduled time the Commit step stores for a model entry
(part_002 line 355): `t.time ? timeToDate(dateStr, t.time) : undefined`;
an absent or empty (falsy) token stores no scheduled time at all. -/
def entryScheduledTime (dayStart : Int) (time? : Option String) : Option JsTime :=
  match time? with
  | none => none
  | some s => if s = "" then none else some (timeToDate dayStart s)

/-! ## Data model

Rows mirror the Prisma entities used by the planning engine.  Pool-item and
category identifiers are strings (UUIDs in the real store); rows created by
the engine itself (`DailyPlan`, `Task`) receive fresh numeric identifiers
from a counter that models the store's id generation.
-/

/-- Pool item kind (`type` column). -/
inductive PoolType where
  | task : PoolType
  | event : PoolType
  | aspiration : PoolType
deriving DecidableEq, Repr

/-- Pool item lifecycle status. -/
inductive PoolStatus where
  | active : PoolStatus
  | paused : PoolStatus
  | completed : PoolStatus
deriving DecidableEq, Repr

/-- A `PoolItem` row. -/
structure PoolItem where
  id : String
  type : PoolType
  title : String
  notes : Option String := none
  categoryId : Option String := none
  scheduledAt : Option Int := none
  scheduledEnd : Option Int := none
  status : PoolStatus := PoolStatus.active
  lastUsedAt : Option Int := none
  useCount : Int := 0
  cooldownDays : Option Int := none
deriving DecidableEq, Repr

/-- A `Category` row (fields the engine reads). -/
structure Category where
  id : String
  name : String
  enabled : Bool := true
deriving DecidableEq, Repr

/-- A `JournalEntry` row (fields the capacity estimator reads). -/
structure JournalEntry where
  timestamp : Int
  content : String := ""
  energyLevel : Option Int := none
  sleepQuality : Option Int := none
deriving DecidableEq, Repr

/-- A `DailyPlan` row. -/
structure PlanRow where
  id : Nat
  date : Int
  capacityScore : String
  mentalStateSummary : Option String := none
deriving DecidableEq, Repr

/-- A `Task` row (a ScheduleEntry in spec terms). -/
structure TaskRow where
  id : Nat
  dailyPlanId : Nat
  categoryId : String
  poolItemId : Option String := none
  title : String
  description : Option String := none
  scheduledTime : Option JsTime := none
  durationMinutes : Option Int := none
  priority : Int := 3
  status : String := "pending"
deriving DecidableEq, Repr

/-- The persistent store visible to the engine.  `nextId` models the id
generator for rows the engine creates. -/
structure DB where
  poolItems : List PoolItem := []
  categories : List Category := []
  journalEntries : List JournalEntry := []
  dailyPlans : List PlanRow := []
  tasks : List TaskRow := []
  nextId : Nat := 0
deriving DecidableEq, Repr

/-! ## Pool availability resolver (`PoolService.getAvailableForDate`) -/

/-- The three candidate lists returned by the resolver. -/
structure AvailablePool where
  tasks : List PoolItem
  aspirations : List PoolItem
  events : List PoolItem
deriving DecidableEq, Repr

/-- `GLOBAL_COOLDOWN_DAYS` (part_002 lines 744–749). -/
def globalCooldownDays : PoolType → Int
  | PoolType.task => 1
  | PoolType.aspiration => 3
  | PoolType.event => 0

/-- Effective cooldown: `item.cooldownDays ?? GLOBAL_COOLDOWN_DAYS[item.type]`. -/
def effectiveCooldown (it : PoolItem) : Int :=
  it.cooldownDays.getD (globalCooldownDays it.type)

/-- `Math.floor((forDate - lastUsed) / 86400000)`: whole days elapsed. -/
def daysSinceUsed (forDate lastUsed : Int) : Int :=
  Int.fdiv (forDate - lastUsed) msPerDay

/-- The cooldown test applied to each active task/aspiration: available
when never used, or when whole days since use reach the effective
cooldown. -/
def cooldownOk (forDate : Int) (it : PoolItem) : Bool :=
  match it.lastUsedAt with
  | none => true
  | some lu => decide (effectiveCooldown it ≤ daysSinceUsed forDate lu)

/-- The event filter of the resolver: type `event`, with a `scheduledAt`
inside the target day's window. -/
def eventOnDay (startOfDay endOfDay : Int) (it : PoolItem) : Bool :=
  decide (it.type = PoolType.event) &&
  match it.scheduledAt with
  | none => false
  | some s => decide (startOfDay ≤ s ∧ s ≤ endOfDay)

/-- Model of `PoolService.getAvailableForDate` (part_002 lines 840–897).
All `active` items are read; events are those of type `event` whose
`scheduledAt` lies in the target day's window (start of day to
`23:59:59.999`, inclusive); tasks and aspirations pass through the
cooldown filter (the source's push-loop is written as a filter). -/
def getAvailableForDate (db : DB) (forDate : Int) : AvailablePool :=
  let startOfDay := dayStartOf forDate
  let endOfDay := startOfDay + (msPerDay - 1)
  let allActive := db.poolItems.filter (fun it => decide (it.status = PoolStatus.active))
  let events := allActive.filter (eventOnDay startOfDay endOfDay)
  let tasksAndAspirations := allActive.filter (fun it =>
    decide (it.type = PoolType.task ∨ it.type = PoolType.aspiration))
  let available := tasksAndAspirations.filter (cooldownOk forDate)
  { tasks := available.filter (fun it => decide (it.type = PoolType.task))
    aspirations := available.filter (fun it => decide (it.type = PoolType.aspiration))
    events := events }

/-! ## Capacity estimator (`gatherContext`, part_002 lines 61–107) -/

/-- Journal entries in the trailing seven-day window strictly before the
target date (`timestamp ∈ [forDate − 7 days, forDate)`). -/
def windowEntries (db : DB) (forDate : Int) : List JournalEntry :=
  db.journalEntries.filter (fun e =>
    decide (forDate - 7 * msPerDay ≤ e.timestamp ∧ e.timestamp < forDate))

/-- Date of the plan owning a task row, when the plan exists. -/
def planDateOf (db : DB) (pid : Nat) : Option Int :=
  (db.dailyPlans.find? (fun p => p.id = pid)).map (·.date)

/-- Task rows whose owning plan's date lies in the trailing seven-day
window strictly before the target date. -/
def windowTasks (db : DB) (forDate : Int) : List TaskRow :=
  db.tasks.filter (fun t =>
    match planDateOf db t.dailyPlanId with
    | some d => decide (forDate - 7 * msPerDay ≤ d ∧ d < forDate)
    | none => false)

/-- Mean of present energy ratings (`??`-guarded reduce over the filtered
entries), default `5` when none carry a rating. -/
def avgEnergy (entries : List JournalEntry) : ℚ :=
  let es := entries.filter (fun e => e.energyLevel.isSome)
  if 0 < es.length then
    (es.foldl (fun a e => a + ((e.energyLevel.getD 0 : Int) : ℚ)) 0) / es.length
  else 5

/-- Mean of present sleep ratings, default `5` when none carry a rating. -/
def avgSleep (entries : List JournalEntry) : ℚ :=
  let es := entries.filter (fun e => e.sleepQuality.isSome)
  if 0 < es.length then
    (es.foldl (fun a e => a + ((e.sleepQuality.getD 0 : Int) : ℚ)) 0) / es.length
  else 5

/-- Fraction of window tasks marked `completed`, default `0.5` when the
window holds no tasks. -/
def completionRate (tasks : List TaskRow) : ℚ :=
  if 0 < tasks.length then
    ((tasks.filter (fun t => t.status = "completed")).length : ℚ) / tasks.length
  else 1 / 2

/-- The composite capacity score
`(avgEnergy / 10) * 0.4 + (avgSleep / 10) * 0.3 + completionRate * 0.3`
(floating-point source arithmetic modelled over ℚ). -/
def capacityScoreNum (e s c : ℚ) : ℚ :=
  (e / 10) * (4 / 10) + (s / 10) * (3 / 10) + c * (3 / 10)

/-- Threshold mapping: `low` below `0.4`, `high` above `0.7`, else
`medium`. -/
def capacityCategory (score : ℚ) : String :=
  if score < 4 / 10 then "low"
  else if 7 / 10 < score then "high"
  else "medium"

/-- The capacity category `gatherContext` computes for a target date. -/
def capacityOf (db : DB) (forDate : Int) : String :=
  capacityCategory
    (capacityScoreNum
      (avgEnergy (windowEntries db forDate))
      (avgSleep (windowEntries db forDate))
      (completionRate (windowTasks db forDate)))

/-! ## Typed model output

The source parses the model's JSON and casts it to the `LLMPlanOutput`
interface without runtime field validation (`JSON.parse(jsonStr) as
LLMPlanOutput`).  The commit is embedded over values of that interface
type; the decoder below is the boundary between parsed JSON and the
interface, and a field that is present but of the wrong type is treated
as a run-time fault inside the transaction (`PlanError.badEntry`),
modelling the `TypeError`/driver rejection such a value produces in the
source. -/

/-- The `LLMTask` interface (part_002 lines 41–50). -/
structure LLMTask where
  category : String
  title : String
  description : Option String := none
  time : Option String := none
  duration_minutes : Option Int := none
  priority : Option Int := none
  pool_item_id : Option String := none
  is_i_wonder : Option Bool := none
deriving DecidableEq, Repr

/-- The `LLMPlanOutput` interface (part_002 lines 53–57). -/
structure LLMPlanOutput where
  capacity_notes : Option String := none
  mental_state_notes : Option String := none
  tasks : List LLMTask := []
deriving DecidableEq, Repr

/-- Optional string field: absent or `null` is `none`; a non-string value
is a decode fault. -/
def jsOptStr (j : Json) (k : String) : Option (Option String) :=
  match jsGetField j k with
  | none => some none
  | some Json.null => some none
  | some (Json.str s) => some (some s)
  | some _ => none

/-- Optional integer field: absent or `null` is `none`. -/
def jsOptNum (j : Json) (k : String) : Option (Option Int) :=
  match jsGetField j k with
  | none => some none
  | some Json.null => some none
  | some (Json.num n) => some (some n)
  | some _ => none

/-- Optional boolean field: absent or `null` is `none`. -/
def jsOptBool (j : Json) (k : String) : Option (Option Bool) :=
  match jsGetField j k with
  | none => some none
  | some Json.null => some none
  | some (Json.bool b) => some (some b)
  | some _ => none

/-- Required string field. -/
def jsReqStr (j : Json) (k : String) : Option String :=
  match jsGetField j k with
  | some (Json.str s) => some s
  | _ => none

/-- Decode one task object into the `LLMTask` interface. -/
def decodeTask (j : Json) : Option LLMTask := do
  let category ← jsReqStr j "category"
  let title ← jsReqStr j "title"
  let description ← jsOptStr j "description"
  let time ← jsOptStr j "time"
  let duration_minutes ← jsOptNum j "duration_minutes"
  let priority ← jsOptNum j "priority"
  let pool_item_id ← jsOptStr j "pool_item_id"
  let is_i_wonder ← jsOptBool j "is_i_wonder"
  pure { category, title, description, time, duration_minutes,
         priority, pool_item_id, is_i_wonder }

/-- Decode the parsed response (with its already-extracted task array)
into the `LLMPlanOutput` interface. -/
def decodeOutput (j : Json) (tasksJson : List Json) : Option LLMPlanOutput := do
  let capacity_notes ← jsOptStr j "capacity_notes"
  let mental_state_notes ← jsOptStr j "mental_state_notes"
  let tasks ← tasksJson.mapM decodeTask
  pure { capacity_notes, mental_state_notes, tasks }

/-! ## Context (`gatherContext` output as consumed by `generatePlan`) -/

/-- The slice of `PlanningContext` the commit consumes: capacity label,
enabled categories as `(name, id)` pairs, and the pool candidate sets. -/
structure Ctx where
  capacityScore : String
  categories : List (String × String)
  pool : AvailablePool
deriving DecidableEq, Repr

/-- Context aggregation for a target date (capacity per §4.1, enabled
categories, pool candidates per the resolver).  The source orders
categories by priority then name; ordering is irrelevant here because
category names are unique in the store (`findUnique({ where: { name } })`),
so the list is kept in store order. -/
def gatherCtx (db : DB) (forDate : Int) : Ctx :=
  { capacityScore := capacityOf db forDate
    categories := (db.categories.filter (·.enabled)).map (fun c => (c.name, c.id))
    pool := getAvailableForDate db forDate }

/-- Lookup in the `categoryByName` map (`new Map(ctx.categories.map(...))`);
a later insertion overwrites an earlier one, so the last pair wins. -/
def lookupCategoryId (cats : List (String × String)) (name : String) : Option String :=
  (cats.reverse.find? (fun c => c.1 = name)).map (·.2)

/-! ## Pool matching inside the commit (part_002 lines 329–353) -/

/-- Title key normalisation: `title.toLowerCase().trim()`. -/
def normKey (s : String) : String :=
  jsTrim (jsToLower s)

/-- The candidate list `[...ctx.poolItems.tasks, ...ctx.poolItems.aspirations]`. -/
def poolCandidates (ctx : Ctx) : List PoolItem :=
  ctx.pool.tasks ++ ctx.pool.aspirations

/-- `poolItemsByTitle.get(key)`: the map is built by inserting every
candidate keyed by its normalised title, a later `set` overwriting an
earlier one, so `get` returns the last candidate whose normalised title
equals the key. -/
def titleMapGet (items : List PoolItem) (key : String) : Option PoolItem :=
  items.reverse.find? (fun it => normKey it.title = key)

/-- Pool matching for one model entry: skipped entirely for `is_i_wonder`
entries; otherwise by normalised title first, then (only when the title
lookup failed) by the model-supplied `pool_item_id` when that id is
truthy. -/
def matchPool (ctx : Ctx) (t : LLMTask) : Option PoolItem :=
  if t.is_i_wonder.getD false then none
  else
    let titleKey := normKey t.title
    match titleMapGet (poolCandidates ctx) titleKey with
    | some p => some p
    | none =>
      match t.pool_item_id with
      | some pid =>
        if pid = "" then none
        else (poolCandidates ctx).find? (fun it => it.id = pid)
      | none => none

/-! ## Commit transaction (`generatePlan`, part_002 lines 282–411)

The source wraps every write in `prisma.$transaction`, and every write
inside the callback goes through the transactional client `tx`
(`tx.dailyPlan.create`, `tx.task.create`, `tx.poolItem.updateMany`).
The transaction is modelled by threading a tentative store through the
steps and discarding it when any step throws; to exercise atomicity, a
persistence failure can be injected at the `failAt`-th write. -/

/-- Errors a generation run can surface. -/
inductive PlanError where
  | llmInvalid : String → PlanError
  | badEntry : PlanError
  | injected : PlanError
deriving DecidableEq, Repr

/-- Transaction-local state: the tentative store, the number of writes
performed so far, and the accumulated `poolItemIdsToMark`. -/
structure TxState where
  db : DB
  writeCount : Nat
  marks : List String
deriving DecidableEq, Repr

/-- Perform one store write inside the transaction, failing when the
injected failure point is reached. -/
def txWrite (failAt : Option Nat) (st : TxState) (f : DB → DB) :
    Except PlanError TxState :=
  if failAt = some st.writeCount then Except.error PlanError.injected
  else Except.ok { st with db := f st.db, writeCount := st.writeCount + 1 }

/-- The `Task` row created for one surviving model entry
(part_002 lines 357–368): `poolItemId` is `matchedPoolItem?.id || null`
(a falsy — empty — id is stored as null), `priority` defaults to `3`. -/
def entryRow (planId rowId : Nat) (cid : String) (matched : Option PoolItem)
    (dayStart : Int) (t : LLMTask) : TaskRow :=
  { id := rowId
    dailyPlanId := planId
    categoryId := cid
    poolItemId := matched.bind (fun p => if p.id = "" then none else some p.id)
    title := t.title
    description := t.description
    scheduledTime := entryScheduledTime dayStart t.time
    durationMinutes := t.duration_minutes
    priority := t.priority.getD 3 }

/-- Step 5 body for one model entry: drop it when its category name does
not resolve to a truthy id (`if (!categoryId) continue`); otherwise match
against the pool, create the row, and record a used pool item. -/
def processTask (ctx : Ctx) (planId : Nat) (dayStart : Int) (failAt : Option Nat)
    (st : TxState) (t : LLMTask) : Except PlanError TxState :=
  match lookupCategoryId ctx.categories t.category with
  | none => Except.ok st
  | some cid =>
    if cid = "" then Except.ok st
    else
      let matched := matchPool ctx t
      match txWrite failAt st (fun db =>
        { db with
          tasks := db.tasks ++ [entryRow planId db.nextId cid matched dayStart t]
          nextId := db.nextId + 1 }) with
      | Except.error e => Except.error e
      | Except.ok st' =>
        Except.ok (match matched with
          | some p => { st' with marks := st'.marks ++ [p.id] }
          | none => st')

/-- The category id an auto-placed event resolves to:
`poolItem.categoryId || ctx.categories[0]?.id` (the fallback also fires
for an empty — falsy — stored id). -/
def eventResolvedCid (ctx : Ctx) (ev : PoolItem) : Option String :=
  match ev.categoryId with
  | some c => if c = "" then (ctx.categories.head?).map (·.2) else some c
  | none => (ctx.categories.head?).map (·.2)

/-- The `Task` row created for one auto-placed event
(part_002 lines 381–391): the event's own fixed time, priority `1`. -/
def eventRow (planId rowId : Nat) (cid : String) (ev : PoolItem)
    (schedTime : Int) : TaskRow :=
  { id := rowId
    dailyPlanId := planId
    categoryId := cid
    poolItemId := some ev.id
    title := ev.title
    description := ev.notes
    scheduledTime := some (JsTime.valid schedTime)
    durationMinutes := none
    priority := 1 }

/-- Step 6 body for one event: skipped when no truthy category id can be
resolved; otherwise create the row and record the event as used. -/
def processEvent (ctx : Ctx) (planId : Nat) (failAt : Option Nat)
    (st : TxState) (evp : PoolItem × Int) : Except PlanError TxState :=
  match eventResolvedCid ctx evp.1 with
  | none => Except.ok st
  | some cid =>
    if cid = "" then Except.ok st
    else
      match txWrite failAt st (fun db =>
        { db with
          tasks := db.tasks ++ [eventRow planId db.nextId cid evp.1 evp.2]
          nextId := db.nextId + 1 }) with
      | Except.error e => Except.error e
      | Except.ok st' => Except.ok { st' with marks := st'.marks ++ [evp.1.id] }

/-- Step 1: `eventsToPlace` pairs each availability-resolver event that
carries a `scheduledAt` with that time. -/
def eventsToPlace (evs : List PoolItem) : List (PoolItem × Int) :=
  evs.filterMap (fun ev => ev.scheduledAt.map (fun s => (ev, s)))

/-- `[parsed.capacity_notes, parsed.mental_state_notes].filter(Boolean)
.join(' ')`, stored as `mentalStateSummary || undefined`. -/
def joinNotes (a b : Option String) : Option String :=
  let parts := ([a, b].filterMap id).filter (fun s => s ≠ "")
  let j := String.intercalate " " parts
  if j = "" then none else some j

/-- One committed generation: the new store, the plan id, the reported
`taskCount`, and the accumulated `poolItemIdsToMark`. -/
structure CommitOut where
  db : DB
  planId : Nat
  taskCount : Nat
  marks : List String
deriving DecidableEq, Repr

/-- Steps 1 and 4–7 of `generatePlan` for an already-validated output:
create the plan row, create one row per surviving model entry, create one
row per auto-placed event, and finally (when any pool item was consumed)
apply the single batched `updateMany` that stamps `lastUsedAt` with the
target date and increments `useCount`. -/
def commitTx (db : DB) (forDate : Int) (ctx : Ctx) (out : LLMPlanOutput)
    (failAt : Option Nat) : Except PlanError CommitOut := do
  let evs := eventsToPlace ctx.pool.events
  let planId := db.nextId
  let st1 ← txWrite failAt { db := db, writeCount := 0, marks := [] } (fun db =>
    { db with
      dailyPlans := db.dailyPlans ++
        [{ id := db.nextId
           date := forDate
           capacityScore := ctx.capacityScore
           mentalStateSummary := joinNotes out.capacity_notes out.mental_state_notes }]
      nextId := db.nextId + 1 })
  let dayStart := dayStartOf forDate
  let st2 ← out.tasks.foldlM (processTask ctx planId dayStart failAt) st1
  let st3 ← evs.foldlM (processEvent ctx planId failAt) st2
  let st4 ←
    if 0 < st3.marks.length then
      txWrite failAt st3 (fun db =>
        { db with
          poolItems := db.poolItems.map (fun p =>
            if st3.marks.contains p.id then
              { p with lastUsedAt := some forDate, useCount := p.useCount + 1 }
            else p) })
    else pure st3
  let totalTasks :=
    (out.tasks.filter (fun t => (lookupCategoryId ctx.categories t.category).isSome)).length
      + evs.length
  return { db := st4.db, planId := planId, taskCount := totalTasks, marks := st4.marks }

/-- The validation error message, carrying the first 500 characters of
the raw model response. -/
def invalidMsg (raw : String) : String :=
  "LLM did not return a valid plan with tasks. Raw response: " ++ raw.take 500

/-- The validation gate from `generatePlan` (part_002 lines 307–310):
`if (!parsed || !Array.isArray(parsed.tasks)) throw ...`. -/
def validateResponse (raw : String) : Except PlanError (Json × List Json) :=
  match parseLLMResponse raw with
  | none => Except.error (PlanError.llmInvalid (invalidMsg raw))
  | some j =>
    match tasksArrOf j with
    | none => Except.error (PlanError.llmInvalid (invalidMsg raw))
    | some l => Except.ok (j, l)

/-- Body of the `prisma.$transaction` callback: gather context, validate
the raw model response, decode it to the interface type, and run the
commit steps.  The model call itself is external; its raw text response
is a parameter. -/
def generatePlanTxBody (db : DB) (forDate : Int) (raw : String)
    (failAt : Option Nat) : Except PlanError CommitOut := do
  let ctx := gatherCtx db forDate
  let (j, tasksJson) ← validateResponse raw
  let out ←
    match decodeOutput j tasksJson with
    | some out => pure out
    | none => Except.error PlanError.badEntry
  commitTx db forDate ctx out failAt

/-- `generatePlan` with `$transaction` semantics: on success the tentative
store becomes visible with `{planId, taskCount}`; on any thrown error the
store visible afterwards is the original one (full rollback). -/
def generatePlanRun (db : DB) (forDate : Int) (raw : String)
    (failAt : Option Nat) : DB × Except PlanError (Nat × Nat) :=
  match generatePlanTxBody db forDate raw failAt with
  | Except.ok r => (r.db, Except.ok (r.planId, r.taskCount))
  | Except.error e => (db, Except.error e)

/-! ## Resolver lemmas -/

theorem cooldownOk_iff (forDate : Int) (it : PoolItem) :
    cooldownOk forDate it = true ↔
      (it.lastUsedAt = none ∨ ∃ lu, it.lastUsedAt = some lu ∧
        effectiveCooldown it ≤ daysSinceUsed forDate lu) := by
  cases h : it.lastUsedAt <;> simp [cooldownOk, h]

theorem eventOnDay_iff (a b : Int) (it : PoolItem) :
    eventOnDay a b it = true ↔
      (it.type = PoolType.event ∧ ∃ s, it.scheduledAt = some s ∧ a ≤ s ∧ s ≤ b) := by
  cases h : it.scheduledAt <;> simp [eventOnDay, h]

/-- C3: for every target date, the availability resolver returns an active
task (respectively aspiration) if and only if it is stored, active, of
that type, and either never used or at least its effective cooldown —
its own `cooldownDays` override if set, else 1 day for tasks and 3 days
for aspirations — of whole days lies between its `lastUsedAt` and the
target date; in particular it never returns one whose days-since-last-use
is strictly below the effective cooldown. -/
theorem pool_cooldown_iff (db : DB) (forDate : Int) (it : PoolItem) :
    (it ∈ (getAvailableForDate db forDate).tasks ↔
       it ∈ db.poolItems ∧ it.status = PoolStatus.active ∧ it.type = PoolType.task ∧
         (it.lastUsedAt = none ∨ ∃ lu, it.lastUsedAt = some lu ∧
           it.cooldownDays.getD 1 ≤ Int.fdiv (forDate - lu) msPerDay)) ∧
    (it ∈ (getAvailableForDate db forDate).aspirations ↔
       it ∈ db.poolItems ∧ it.status = PoolStatus.active ∧ it.type = PoolType.aspiration ∧
         (it.lastUsedAt = none ∨ ∃ lu, it.lastUsedAt = some lu ∧
           it.cooldownDays.getD 3 ≤ Int.fdiv (forDate - lu) msPerDay)) := by
  constructor
  · simp only [getAvailableForDate, List.mem_filter, cooldownOk_iff, decide_eq_true_eq]
    constructor
    · rintro ⟨⟨⟨⟨hm, hs⟩, -⟩, hc⟩, ht⟩
      refine ⟨hm, hs, ht, ?_⟩
      simpa [effectiveCooldown, globalCooldownDays, ht, daysSinceUsed] using hc
    · rintro ⟨hm, hs, ht, hc⟩
      refine ⟨⟨⟨⟨hm, hs⟩, Or.inl ht⟩, ?_⟩, ht⟩
      simpa [effectiveCooldown, globalCooldownDays, ht, daysSinceUsed] using hc
  · simp only [getAvailableForDate, List.mem_filter, cooldownOk_iff, decide_eq_true_eq]
    constructor
    · rintro ⟨⟨⟨⟨hm, hs⟩, -⟩, hc⟩, ht⟩
      refine ⟨hm, hs, ht, ?_⟩
      simpa [effectiveCooldown, globalCooldownDays, ht, daysSinceUsed] using hc
    · rintro ⟨hm, hs, ht, hc⟩
      refine ⟨⟨⟨⟨hm, hs⟩, Or.inr ht⟩, ?_⟩, ht⟩
      simpa [effectiveCooldown, globalCooldownDays, ht, daysSinceUsed] using hc

/-- C4: for every target date, the resolver's events list contains exactly
the active pool items of type `event` whose scheduled start lies within
the target day's calendar window (start of day to `23:59:59.999`,
inclusive); events outside the window — in particular events of any other
date — are excluded, and no cooldown condition takes part in the
filter. -/
theorem pool_events_iff (db : DB) (forDate : Int) (ev : PoolItem) :
    ev ∈ (getAvailableForDate db forDate).events ↔
      ev ∈ db.poolItems ∧ ev.status = PoolStatus.active ∧ ev.type = PoolType.event ∧
        ∃ s, ev.scheduledAt = some s ∧
          dayStartOf forDate ≤ s ∧ s ≤ dayStartOf forDate + (msPerDay - 1) := by
  simp only [getAvailableForDate, List.mem_filter, eventOnDay_iff, decide_eq_true_eq]
  tauto

/-! ## Capacity estimator lemmas -/

theorem foldl_add_eq_sum_map {α : Type} (f : α → ℚ) (l : List α) :
    l.foldl (fun a x => a + f x) 0 = (l.map f).sum := by
  have h : ∀ init : ℚ, l.foldl (fun a x => a + f x) init = init + (l.map f).sum := by
    induction l with
    | nil => intro init; simp
    | cons x xs ih => intro init; simp [List.foldl, ih, add_assoc]
  simpa using h 0

theorem avgEnergy_eq (entries : List JournalEntry) :
    avgEnergy entries =
      (if (entries.filter (fun e => e.energyLevel.isSome)).map
            (fun e => ((e.energyLevel.getD 0 : Int) : ℚ)) = [] then (5 : ℚ)
       else ((entries.filter (fun e => e.energyLevel.isSome)).map
              (fun e => ((e.energyLevel.getD 0 : Int) : ℚ))).sum /
            ((entries.filter (fun e => e.energyLevel.isSome)).map
              (fun e => ((e.energyLevel.getD 0 : Int) : ℚ))).length) := by
  simp only [avgEnergy, foldl_add_eq_sum_map, List.length_map]
  rcases eq_or_ne (entries.filter (fun e => e.energyLevel.isSome)) [] with h | h
  · simp [h]
  · simp [h, List.length_pos.mpr h]

theorem avgSleep_eq (entries : List JournalEntry) :
    avgSleep entries =
      (if (entries.filter (fun e => e.sleepQuality.isSome)).map
            (fun e => ((e.sleepQuality.getD 0 : Int) : ℚ)) = [] then (5 : ℚ)
       else ((entries.filter (fun e => e.sleepQuality.isSome)).map
              (fun e => ((e.sleepQuality.getD 0 : Int) : ℚ))).sum /
            ((entries.filter (fun e => e.sleepQuality.isSome)).map
              (fun e => ((e.sleepQuality.getD 0 : Int) : ℚ))).length) := by
  simp only [avgSleep, foldl_add_eq_sum_map, List.length_map]
  rcases eq_or_ne (entries.filter (fun e => e.sleepQuality.isSome)) [] with h | h
  · simp [h]
  · simp [h, List.length_pos.mpr h]

theorem completionRate_eq (tasks : List TaskRow) :
    completionRate tasks =
      (if tasks = [] then (1 / 2 : ℚ)
       else ((tasks.filter (fun t => t.status = "completed")).length : ℚ) / tasks.length) := by
  simp only [completionRate]
  rcases eq_or_ne tasks [] with h | h
  · simp [h]
  · simp [h, List.length_pos.mpr h]

theorem capacityScoreNum_comm (e s c : ℚ) :
    capacityScoreNum e s c = (4 / 10) * e / 10 + (3 / 10) * s / 10 + (3 / 10) * c := by
  unfold capacityScoreNum; ring

/-- C8: the capacity estimator combines the mean energy rating, mean sleep
rating and completion rate over the trailing seven days (defaulting to 5,
5 and 0.5 when the window carries no data) through the fixed weighted sum
`0.4*energy/10 + 0.3*sleep/10 + 0.3*completionRate` and maps the composite
score to `low` below 0.4, `high` above 0.7, and `medium` otherwise; the
inputs energy = 8, sleep = 8, completionRate = 0.9 give score 0.83 and
category `high`. -/
theorem capacity_estimator (db : DB) (forDate : Int) :
    (capacityOf db forDate =
      (let energies := ((windowEntries db forDate).filter
          (fun e => e.energyLevel.isSome)).map
          (fun e => ((e.energyLevel.getD 0 : Int) : ℚ))
       let sleeps := ((windowEntries db forDate).filter
          (fun e => e.sleepQuality.isSome)).map
          (fun e => ((e.sleepQuality.getD 0 : Int) : ℚ))
       let wt := windowTasks db forDate
       let energy : ℚ := if energies = [] then 5 else energies.sum / energies.length
       let sleep : ℚ := if sleeps = [] then 5 else sleeps.sum / sleeps.length
       let rate : ℚ := if wt = [] then 1 / 2
         else ((wt.filter (fun t => t.status = "completed")).length : ℚ) / wt.length
       let score : ℚ := (4 / 10) * energy / 10 + (3 / 10) * sleep / 10 + (3 / 10) * rate
       if score < 4 / 10 then "low" else if 7 / 10 < score then "high" else "medium")) ∧
    capacityScoreNum 8 8 (9 / 10) = 83 / 100 ∧
    capacityCategory (83 / 100) = "high" := by
  refine ⟨?_, by norm_num [capacityScoreNum], by norm_num [capacityCategory]⟩
  simp only [capacityOf, avgEnergy_eq, avgSleep_eq, completionRate_eq,
    capacityScoreNum_comm, capacityCategory]

/-! ## Scheduled-time token mapping (claim C2) -/

/-- C2 counterexample: the Commit step does not default an absent or
unrecognized time token to 09:00.  An unrecognized token (`"noon"`)
produces an invalid date (the NaN result of `setHours(Number("noon"), …)`),
and an absent token stores no scheduled time at all, because
`generatePlan` computes `t.time ? timeToDate(dateStr, t.time) : undefined`. -/
theorem time_token_counterexample :
    entryScheduledTime 0 (some "noon") = some JsTime.invalid ∧
    some JsTime.invalid ≠ some (JsTime.valid (9 * 3600000)) ∧
    entryScheduledTime 0 none = none ∧
    (none : Option JsTime) ≠ some (JsTime.valid (9 * 3600000)) :=
  ⟨by decide, by decide, rfl, by decide⟩

/-- C2 (amended): in the Commit step, `morning` maps to 09:00, `afternoon`
to 14:00 and `evening` to 18:00 on the target date, and a token whose
`':'`-separated parts are both numeric is used verbatim as hour/minute;
however an absent or empty token leaves the entry with *no* scheduled
time, and a non-empty unrecognized token (non-numeric before the first
`':'`) yields an *invalid* scheduled time via NaN propagation — neither
defaults to 09:00. -/
theorem time_token_mapping (dayStart : Int) :
    entryScheduledTime dayStart none = none ∧
    entryScheduledTime dayStart (some "") = none ∧
    entryScheduledTime dayStart (some "morning") = some (JsTime.valid (dayStart + 9 * 3600000)) ∧
    entryScheduledTime dayStart (some "afternoon") = some (JsTime.valid (dayStart + 14 * 3600000)) ∧
    entryScheduledTime dayStart (some "evening") = some (JsTime.valid (dayStart + 18 * 3600000)) ∧
    (∀ s h m, s ≠ "" → s ≠ "morning" → s ≠ "afternoon" → s ≠ "evening" →
      (jsSplit s ':').map jsNumber = [some h, some m] →
      entryScheduledTime dayStart (some s) =
        some (JsTime.valid (dayStart + h * 3600000 + m * 60000))) ∧
    (∀ s, s ≠ "" → s ≠ "morning" → s ≠ "afternoon" → s ≠ "evening" →
      ((jsSplit s ':').map jsNumber).head? = some none →
      entryScheduledTime dayStart (some s) = some JsTime.invalid) := by
  refine ⟨rfl, by simp [entryScheduledTime], by simp [entryScheduledTime, timeToDate],
    by simp [entryScheduledTime, timeToDate], by simp [entryScheduledTime, timeToDate],
    ?_, ?_⟩
  · intro s h m h1 h2 h3 h4 hmap
    simp only [entryScheduledTime, timeToDate, h1, h2, h3, h4, hmap, if_false,
      or_self, if_neg (by simp [h1, h2] : ¬(s = "" ∨ s = "morning"))]
    simp [hmap, h1]
  · intro s h1 h2 h3 h4 hhead
    simp only [entryScheduledTime, timeToDate,
      if_neg (by simp [h1, h2] : ¬(s = "" ∨ s = "morning")), h3, h4, if_false]
    rcases hm : ((jsSplit s ':').map jsNumber).get? 1 with _ | v
    · simp [hhead, hm, h1]
    · cases v <;> simp [hhead, hm, h1]

/-- Witness for the amended C2 statement: the explicit token `10:30` is
used verbatim. -/
theorem time_token_mapping_witness :
    entryScheduledTime 0 (some "10:30") = some (JsTime.valid (0 + 10 * 3600000 + 30 * 60000)) :=
  (time_token_mapping 0).2.2.2.2.2.1 "10:30" 10 30 (by decide) (by decide) (by decide)
    (by decide) (by decide)

/-! ## Pool matching (claim C6) -/

/-- C6: for every model entry in the Commit step, an entry flagged
`is_i_wonder` skips pool matching entirely and its created row carries no
pool-item reference; otherwise, when some candidate's normalised
(lower-cased, trimmed) title equals the entry's, the entry is matched to
a candidate with exactly that normalised title (and to *the* candidate
when it is unique), and only when no candidate's title matches is the
model-supplied pool-item identifier consulted. -/
theorem match_pool_characterization (ctx : Ctx) (t : LLMTask) :
    (t.is_i_wonder.getD false = true →
        matchPool ctx t = none ∧
        ∀ planId rowId cid dayStart,
          (entryRow planId rowId cid (matchPool ctx t) dayStart t).poolItemId = none) ∧
    (t.is_i_wonder.getD false = false →
      ((∃ c ∈ poolCandidates ctx, normKey c.title = normKey t.title) →
        ∃ p, matchPool ctx t = some p ∧ p ∈ poolCandidates ctx ∧
          normKey p.title = normKey t.title) ∧
      (∀ p, p ∈ poolCandidates ctx → normKey p.title = normKey t.title →
        (∀ q, q ∈ poolCandidates ctx → normKey q.title = normKey t.title → q = p) →
        matchPool ctx t = some p) ∧
      ((∀ c, c ∈ poolCandidates ctx → normKey c.title ≠ normKey t.title) →
        matchPool ctx t =
          (match t.pool_item_id with
           | some pid => if pid = "" then none
               else (poolCandidates ctx).find? (fun it => decide (it.id = pid))
           | none => none))) := by
  constructor
  · intro hw
    refine ⟨by simp [matchPool, hw], ?_⟩
    intro planId rowId cid dayStart
    simp [entryRow, matchPool, hw]
  · intro hw
    have hex : (∃ c ∈ poolCandidates ctx, normKey c.title = normKey t.title) →
        ∃ p, matchPool ctx t = some p ∧ p ∈ poolCandidates ctx ∧
          normKey p.title = normKey t.title := by
      rintro ⟨c, hc, hck⟩
      have hsome : (titleMapGet (poolCandidates ctx) (normKey t.title)).isSome := by
        rw [titleMapGet, List.find?_isSome]
        exact ⟨c, by simpa using hc, by simpa using hck⟩
      obtain ⟨p, hp⟩ := Option.isSome_iff_exists.mp hsome
      refine ⟨p, ?_, ?_, ?_⟩
      · simp [matchPool, hw, hp]
      · have := List.mem_of_find?_eq_some hp
        simpa using this
      · have := List.find?_some hp
        simpa using this
    refine ⟨hex, ?_, ?_⟩
    · intro p hp hk huniq
      obtain ⟨q, hq, hqm, hqk⟩ := hex ⟨p, hp, hk⟩
      rwa [huniq q hqm hqk] at hq
    · intro hnone
      have hmg : titleMapGet (poolCandidates ctx) (normKey t.title) = none := by
        rw [titleMapGet, List.find?_eq_none]
        intro c hc
        simpa using hnone c (by simpa using hc)
      simp [matchPool, hw, hmg]

/-- A one-candidate pool context used by concrete scenarios. -/
def walkItem : PoolItem :=
  { id := "p1", type := PoolType.task, title := "Walk" }

/-- Concrete context: one enabled category, the `Walk` pool task, no
events. -/
def walkCtx : Ctx :=
  { capacityScore := "medium"
    categories := [("Exercise", "c1")]
    pool := { tasks := [walkItem], aspirations := [], events := [] } }

/-- Witness for C6: an entry titled `" WALK "` (case and whitespace
differing) is linked to the `Walk` candidate. -/
theorem match_pool_characterization_witness :
    matchPool walkCtx { category := "Exercise", title := " WALK " } = some walkItem :=
  ((match_pool_characterization walkCtx
      { category := "Exercise", title := " WALK " }).2 (by decide)).2.1 walkItem
    (by decide) (by decide) (by decide)

def keptFlag (ctx : Ctx) (t : LLMTask) : Bool :=
  match lookupCategoryId ctx.categories t.category with
  | some cid => decide (cid ≠ "")
  | none => false

def keptTasks (ctx : Ctx) (ts : List LLMTask) : List LLMTask :=
  ts.filter (keptFlag ctx)

def taskMarks (ctx : Ctx) (ts : List LLMTask) : List String :=
  (keptTasks ctx ts).filterMap (fun t => (matchPool ctx t).map (·.id))

theorem except_pure_eq {α : Type} (a : α) : (pure a : Except PlanError α) = Except.ok a := rfl

theorem except_bind_ok {α β : Type} (a : α) (f : α → Except PlanError β) :
    (Except.ok a >>= f : Except PlanError β) = f a := rfl

theorem txWrite_none (st : TxState) (f : DB → DB) :
    txWrite none st f =
      Except.ok { st with db := f st.db, writeCount := st.writeCount + 1 } := by
  simp [txWrite]

theorem processTasks_ok (ctx : Ctx) (planId : Nat) (dayStart : Int) :
    ∀ (ts : List LLMTask) (st : TxState),
      ∃ st', List.foldlM (processTask ctx planId dayStart none) st ts = Except.ok st' ∧
        st'.db.poolItems = st.db.poolItems ∧
        st'.db.dailyPlans = st.db.dailyPlans ∧
        st'.db.categories = st.db.categories ∧
        st'.db.journalEntries = st.db.journalEntries ∧
        st'.db.tasks.length = st.db.tasks.length + (keptTasks ctx ts).length ∧
        st'.marks = st.marks ++ taskMarks ctx ts ∧
        (∀ row ∈ st'.db.tasks, row ∈ st.db.tasks ∨ ∃ t ∈ keptTasks ctx ts, ∃ rowId cid,
          lookupCategoryId ctx.categories t.category = some cid ∧ cid ≠ "" ∧
          row = entryRow planId rowId cid (matchPool ctx t) dayStart t) := by
  intro ts
  induction ts with
  | nil =>
    intro st
    exact ⟨st, by simp [except_pure_eq], rfl, rfl, rfl, rfl, by simp [keptTasks, taskMarks],
      by simp [taskMarks, keptTasks], fun row hr => Or.inl hr⟩
  | cons t ts ih =>
    intro st
    rcases hl : lookupCategoryId ctx.categories t.category with _ | cid
    · obtain ⟨st', hfold, h1, h2, h3, h4, h5, h6, h7⟩ := ih st
      refine ⟨st', ?_, h1, h2, h3, h4, ?_, ?_, ?_⟩
      · simp [List.foldlM_cons, processTask, hl, hfold, except_bind_ok]
      · simpa [keptTasks, keptFlag, hl] using h5
      · simpa [taskMarks, keptTasks, keptFlag, hl] using h6
      · intro row hr
        rcases h7 row hr with h | ⟨t', ht', hsh⟩
        · exact Or.inl h
        · refine Or.inr ⟨t', ?_, hsh⟩
          simpa [keptTasks, keptFlag, hl] using ht'
    · by_cases hc : cid = ""
      · obtain ⟨st', hfold, h1, h2, h3, h4, h5, h6, h7⟩ := ih st
        refine ⟨st', ?_, h1, h2, h3, h4, ?_, ?_, ?_⟩
        · simp [List.foldlM_cons, processTask, hl, hc, hfold, except_bind_ok]
        · simpa [keptTasks, keptFlag, hl, hc] using h5
        · simpa [taskMarks, keptTasks, keptFlag, hl, hc] using h6
        · intro row hr
          rcases h7 row hr with h | ⟨t', ht', hsh⟩
          · exact Or.inl h
          · refine Or.inr ⟨t', ?_, hsh⟩
            simpa [keptTasks, keptFlag, hl, hc] using ht'
      · set stNext : TxState :=
          { db := { st.db with
              tasks := st.db.tasks ++
                [entryRow planId st.db.nextId cid (matchPool ctx t) dayStart t]
              nextId := st.db.nextId + 1 }
            writeCount := st.writeCount + 1
            marks := st.marks ++ (match matchPool ctx t with
              | some p => [p.id]
              | none => []) } with hstNext
        have hstep : processTask ctx planId dayStart none st t = Except.ok stNext := by
          rcases hm : matchPool ctx t with _ | p <;>
            simp [processTask, hl, hc, txWrite, hm, hstNext]
        obtain ⟨st', hfold, h1, h2, h3, h4, h5, h6, h7⟩ := ih stNext
        refine ⟨st', ?_, ?_, ?_, ?_, ?_, ?_, ?_, ?_⟩
        · simp [List.foldlM_cons, hstep, hfold, except_bind_ok]
        · simpa [hstNext] using h1
        · simpa [hstNext] using h2
        · simpa [hstNext] using h3
        · simpa [hstNext] using h4
        · rw [h5, hstNext]
          simp [keptTasks, keptFlag, hl, hc]
          omega
        · rw [h6, hstNext]
          rcases hm : matchPool ctx t with _ | p <;>
            simp [taskMarks, keptTasks, keptFlag, hl, hc, hm, List.filterMap_cons]
        · intro row hr
          rcases h7 row hr with h | ⟨t', ht', hsh⟩
          · rw [hstNext] at h
            simp only [List.mem_append, List.mem_singleton] at h
            rcases h with h | h
            · exact Or.inl h
            · refine Or.inr ⟨t, ?_, st.db.nextId, cid, hl, hc, h⟩
              simp [keptTasks, keptFlag, hl, hc]
          · refine Or.inr ⟨t', ?_, hsh⟩
            have hkc : keptTasks ctx (t :: ts) = t :: keptTasks ctx ts := by
              simp [keptTasks, keptFlag, hl, hc]
            rw [hkc]
            exact List.mem_cons_of_mem _ ht'

def placedFlag (ctx : Ctx) (ep : PoolItem × Int) : Bool :=
  match eventResolvedCid ctx ep.1 with
  | some cid => decide (cid ≠ "")
  | none => false

def placedEvents (ctx : Ctx) (evs : List (PoolItem × Int)) : List (PoolItem × Int) :=
  evs.filter (placedFlag ctx)

def rowMatchesEvent (ep : PoolItem × Int) (row : TaskRow) : Prop :=
  row.title = ep.1.title ∧ row.priority = 1 ∧
  row.scheduledTime = some (JsTime.valid ep.2) ∧
  row.poolItemId = some ep.1.id ∧ row.description = ep.1.notes

theorem processEvents_ok (ctx : Ctx) (planId : Nat) :
    ∀ (evs : List (PoolItem × Int)) (st : TxState),
      ∃ st', List.foldlM (processEvent ctx planId none) st evs = Except.ok st' ∧
        st'.db.poolItems = st.db.poolItems ∧
        st'.db.dailyPlans = st.db.dailyPlans ∧
        st'.db.categories = st.db.categories ∧
        st'.db.journalEntries = st.db.journalEntries ∧
        st'.db.tasks.length = st.db.tasks.length + (placedEvents ctx evs).length ∧
        st'.marks = st.marks ++ (placedEvents ctx evs).map (fun ep => ep.1.id) ∧
        (∀ row ∈ st'.db.tasks, row ∈ st.db.tasks ∨ ∃ ep ∈ evs, rowMatchesEvent ep row) := by
  intro evs
  induction evs with
  | nil =>
    intro st
    exact ⟨st, by simp [except_pure_eq], rfl, rfl, rfl, rfl,
      by simp [placedEvents], by simp [placedEvents], fun row hr => Or.inl hr⟩
  | cons ep evs ih =>
    intro st
    rcases hl : eventResolvedCid ctx ep.1 with _ | cid
    · obtain ⟨st', hfold, h1, h2, h3, h4, h5, h6, h7⟩ := ih st
      refine ⟨st', ?_, h1, h2, h3, h4, ?_, ?_, ?_⟩
      · simp [List.foldlM_cons, processEvent, hl, hfold, except_bind_ok]
      · simpa [placedEvents, placedFlag, hl] using h5
      · simpa [placedEvents, placedFlag, hl] using h6
      · intro row hr
        rcases h7 row hr with h | ⟨ep', hep', hm⟩
        · exact Or.inl h
        · exact Or.inr ⟨ep', List.mem_cons_of_mem _ hep', hm⟩
    · by_cases hc : cid = ""
      · obtain ⟨st', hfold, h1, h2, h3, h4, h5, h6, h7⟩ := ih st
        refine ⟨st', ?_, h1, h2, h3, h4, ?_, ?_, ?_⟩
        · simp [List.foldlM_cons, processEvent, hl, hc, hfold, except_bind_ok]
        · simpa [placedEvents, placedFlag, hl, hc] using h5
        · simpa [placedEvents, placedFlag, hl, hc] using h6
        · intro row hr
          rcases h7 row hr with h | ⟨ep', hep', hm⟩
          · exact Or.inl h
          · exact Or.inr ⟨ep', List.mem_cons_of_mem _ hep', hm⟩
      · set stNext : TxState :=
          { db := { st.db with
              tasks := st.db.tasks ++ [eventRow planId st.db.nextId cid ep.1 ep.2]
              nextId := st.db.nextId + 1 }
            writeCount := st.writeCount + 1
            marks := st.marks ++ [ep.1.id] } with hstNext
        have hstep : processEvent ctx planId none st ep = Except.ok stNext := by
          simp [processEvent, hl, hc, txWrite, hstNext]
        obtain ⟨st', hfold, h1, h2, h3, h4, h5, h6, h7⟩ := ih stNext
        refine ⟨st', ?_, ?_, ?_, ?_, ?_, ?_, ?_, ?_⟩
        · simp [List.foldlM_cons, hstep, hfold, except_bind_ok]
        · simpa [hstNext] using h1
        · simpa [hstNext] using h2
        · simpa [hstNext] using h3
        · simpa [hstNext] using h4
        · rw [h5, hstNext]
          simp [placedEvents, placedFlag, hl, hc]
          omega
        · rw [h6, hstNext]
          simp [placedEvents, placedFlag, hl, hc]
        · intro row hr
          rcases h7 row hr with h | ⟨ep', hep', hm⟩
          · rw [hstNext] at h
            simp only [List.mem_append, List.mem_singleton] at h
            rcases h with h | h
            · exact Or.inl h
            · refine Or.inr ⟨ep, List.mem_cons_self _ _, ?_⟩
              rw [h]
              exact ⟨rfl, rfl, rfl, rfl, rfl⟩
          · exact Or.inr ⟨ep', List.mem_cons_of_mem _ hep', hm⟩

theorem commitTx_none (db : DB) (forDate : Int) (ctx : Ctx) (out : LLMPlanOutput) :
    ∃ r, commitTx db forDate ctx out none = Except.ok r ∧
      r.planId = db.nextId ∧
      r.taskCount = (out.tasks.filter
          (fun t => (lookupCategoryId ctx.categories t.category).isSome)).length +
        (eventsToPlace ctx.pool.events).length ∧
      r.marks = taskMarks ctx out.tasks ++
        (placedEvents ctx (eventsToPlace ctx.pool.events)).map (fun ep => ep.1.id) ∧
      r.db.categories = db.categories ∧
      r.db.journalEntries = db.journalEntries ∧
      r.db.dailyPlans = db.dailyPlans ++
        [{ id := db.nextId, date := forDate, capacityScore := ctx.capacityScore,
           mentalStateSummary := joinNotes out.capacity_notes out.mental_state_notes }] ∧
      r.db.tasks.length = db.tasks.length + (keptTasks ctx out.tasks).length +
        (placedEvents ctx (eventsToPlace ctx.pool.events)).length ∧
      r.db.poolItems = db.poolItems.map (fun p =>
        if r.marks.contains p.id then
          { p with lastUsedAt := some forDate, useCount := p.useCount + 1 }
        else p) ∧
      (∀ row ∈ r.db.tasks, row ∈ db.tasks ∨
        (∃ t ∈ keptTasks ctx out.tasks, ∃ rowId cid,
          lookupCategoryId ctx.categories t.category = some cid ∧ cid ≠ "" ∧
          row = entryRow db.nextId rowId cid (matchPool ctx t) (dayStartOf forDate) t) ∨
        ∃ ep ∈ eventsToPlace ctx.pool.events, rowMatchesEvent ep row) := by
  set st1 : TxState :=
    { db := { db with
        dailyPlans := db.dailyPlans ++
          [{ id := db.nextId
             date := forDate
             capacityScore := ctx.capacityScore
             mentalStateSummary := joinNotes out.capacity_notes out.mental_state_notes }]
        nextId := db.nextId + 1 }
      writeCount := 1
      marks := [] } with hst1
  obtain ⟨st2, hf2, ha1, ha2, ha3, ha4, ha5, ha6, ha7⟩ :=
    processTasks_ok ctx db.nextId (dayStartOf forDate) out.tasks st1
  obtain ⟨st3, hf3, hb1, hb2, hb3, hb4, hb5, hb6, hb7⟩ :=
    processEvents_ok ctx db.nextId (eventsToPlace ctx.pool.events) st2
  have hmarks : st3.marks = taskMarks ctx out.tasks ++
      (placedEvents ctx (eventsToPlace ctx.pool.events)).map (fun ep => ep.1.id) := by
    simp [hb6, ha6, hst1]
  have hpool3 : st3.db.poolItems = db.poolItems := by
    simp [hb1, ha1, hst1]
  have hplans3 : st3.db.dailyPlans = db.dailyPlans ++
      [{ id := db.nextId, date := forDate, capacityScore := ctx.capacityScore,
         mentalStateSummary := joinNotes out.capacity_notes out.mental_state_notes }] := by
    simp [hb2, ha2, hst1]
  have hcats3 : st3.db.categories = db.categories := by
    simp [hb3, ha3, hst1]
  have hjour3 : st3.db.journalEntries = db.journalEntries := by
    simp [hb4, ha4, hst1]
  have hlen3 : st3.db.tasks.length = db.tasks.length + (keptTasks ctx out.tasks).length +
      (placedEvents ctx (eventsToPlace ctx.pool.events)).length := by
    simp [hb5, ha5, hst1]
  have hrows3 : ∀ row ∈ st3.db.tasks, row ∈ db.tasks ∨
      (∃ t ∈ keptTasks ctx out.tasks, ∃ rowId cid,
        lookupCategoryId ctx.categories t.category = some cid ∧ cid ≠ "" ∧
        row = entryRow db.nextId rowId cid (matchPool ctx t) (dayStartOf forDate) t) ∨
      ∃ ep ∈ eventsToPlace ctx.pool.events, rowMatchesEvent ep row := by
    intro row hr
    rcases hb7 row hr with h | hev
    · rcases ha7 row h with h' | hmod
      · exact Or.inl h'
      · exact Or.inr (Or.inl hmod)
    · exact Or.inr (Or.inr hev)
  by_cases hm : 0 < st3.marks.length
  · refine ⟨CommitOut.mk
      { st3.db with poolItems := st3.db.poolItems.map (fun p =>
          if st3.marks.contains p.id then
            { p with lastUsedAt := some forDate, useCount := p.useCount + 1 }
          else p) }
      db.nextId
      ((out.tasks.filter
          (fun t => (lookupCategoryId ctx.categories t.category).isSome)).length +
        (eventsToPlace ctx.pool.events).length)
      st3.marks,
      ?_, rfl, rfl, hmarks, hcats3, hjour3, hplans3, hlen3, ?_, hrows3⟩
    · simp only [commitTx, hst1, txWrite_none, except_bind_ok, hf2, hf3, hm, if_pos]
      rfl
    · rw [hpool3, hmarks]
  · refine ⟨CommitOut.mk st3.db db.nextId
      ((out.tasks.filter
          (fun t => (lookupCategoryId ctx.categories t.category).isSome)).length +
        (eventsToPlace ctx.pool.events).length)
      st3.marks,
      ?_, rfl, rfl, hmarks, hcats3, hjour3, hplans3, hlen3, ?_, hrows3⟩
    · simp only [commitTx, hst1, txWrite_none, except_bind_ok, hf2, hf3, hm, if_neg,
        except_pure_eq]
      rfl
    · have hempty : st3.marks = [] := by
        cases h : st3.marks with
        | nil => rfl
        | cons a l => rw [h] at hm; simp at hm
      rw [hpool3, hempty]
      simp

theorem except_bind_error {α β : Type} (e : PlanError) (f : α → Except PlanError β) :
    (Except.error e >>= f : Except PlanError β) = Except.error e := rfl

theorem txWrite_error (failAt : Option Nat) (st : TxState) (f : DB → DB) (e : PlanError)
    (h : txWrite failAt st f = Except.error e) : e = PlanError.injected := by
  unfold txWrite at h
  split at h
  · injection h with h; exact h.symm
  · cases h

theorem processTask_error (ctx : Ctx) (planId : Nat) (dayStart : Int) (failAt : Option Nat)
    (st : TxState) (t : LLMTask) (e : PlanError)
    (h : processTask ctx planId dayStart failAt st t = Except.error e) :
    e = PlanError.injected := by
  unfold processTask at h
  rcases hl : lookupCategoryId ctx.categories t.category with _ | cid <;>
    simp only [hl] at h
  · exact Except.noConfusion h
  · by_cases hc : cid = ""
    · rw [if_pos hc] at h; exact Except.noConfusion h
    · rw [if_neg hc] at h
      rcases hw : txWrite failAt st _ with e' | st' <;> rw [hw] at h
      · injection h with h; exact h ▸ txWrite_error _ _ _ _ hw
      · exact Except.noConfusion h

theorem processEvent_error (ctx : Ctx) (planId : Nat) (failAt : Option Nat)
    (st : TxState) (ep : PoolItem × Int) (e : PlanError)
    (h : processEvent ctx planId failAt st ep = Except.error e) :
    e = PlanError.injected := by
  unfold processEvent at h
  rcases hl : eventResolvedCid ctx ep.1 with _ | cid <;>
    simp only [hl] at h
  · exact Except.noConfusion h
  · by_cases hc : cid = ""
    · rw [if_pos hc] at h; exact Except.noConfusion h
    · rw [if_neg hc] at h
      rcases hw : txWrite failAt st _ with e' | st' <;> rw [hw] at h
      · injection h with h; exact h ▸ txWrite_error _ _ _ _ hw
      · exact Except.noConfusion h

theorem foldlM_error {α : Type} (f : TxState → α → Except PlanError TxState)
    (hf : ∀ st a e, f st a = Except.error e → e = PlanError.injected) :
    ∀ (l : List α) (st : TxState) (e : PlanError),
      List.foldlM f st l = Except.error e → e = PlanError.injected := by
  intro l
  induction l with
  | nil => intro st e h; rw [List.foldlM_nil] at h; exact Except.noConfusion h
  | cons a l ih =>
    intro st e h
    rw [List.foldlM_cons] at h
    rcases hf' : f st a with e' | st' <;> rw [hf'] at h
    · rw [except_bind_error] at h
      injection h with h
      exact h ▸ hf st a e' hf'
    · rw [except_bind_ok] at h
      exact ih st' e h

theorem commitTx_error (db : DB) (forDate : Int) (ctx : Ctx) (out : LLMPlanOutput)
    (failAt : Option Nat) (e : PlanError)
    (h : commitTx db forDate ctx out failAt = Except.error e) :
    e = PlanError.injected := by
  simp only [commitTx] at h
  rcases h1 : txWrite failAt { db := db, writeCount := 0, marks := [] } _ with e1 | st1 <;>
    rw [h1] at h
  · rw [except_bind_error] at h
    injection h with h
    exact h ▸ txWrite_error _ _ _ _ h1
  · rw [except_bind_ok] at h
    rcases h2 : List.foldlM (processTask ctx db.nextId (dayStartOf forDate) failAt) st1
        out.tasks with e2 | st2 <;> rw [h2] at h
    · rw [except_bind_error] at h
      injection h with h
      exact h ▸ foldlM_error _ (fun st a e' hh => processTask_error _ _ _ _ _ _ _ hh) _ _ _ h2
    · rw [except_bind_ok] at h
      rcases h3 : List.foldlM (processEvent ctx db.nextId failAt) st2
          (eventsToPlace ctx.pool.events) with e3 | st3 <;> rw [h3] at h
      · rw [except_bind_error] at h
        injection h with h
        exact h ▸ foldlM_error _ (fun st a e' hh => processEvent_error _ _ _ _ _ _ hh) _ _ _ h3
      · rw [except_bind_ok] at h
        split at h
        · rcases h4 : txWrite failAt st3 _ with e4 | st4 <;> rw [h4] at h
          · rw [except_bind_error] at h
            injection h with h
            exact h ▸ txWrite_error _ _ _ _ h4
          · rw [except_bind_ok] at h; exact Except.noConfusion h
        · rw [except_pure_eq, except_bind_ok] at h
          exact Except.noConfusion h

def entryListOf (j : Json) : Option (List Json) :=
  match j with
  | Json.obj fs =>
    match (fs.reverse.find? (fun f => f.1 = "tasks")).map (·.2) with
    | some (Json.arr l) => some l
    | _ => none
  | _ => none

theorem tasksArrOf_eq_entryListOf (j : Json) : tasksArrOf j = entryListOf j := by
  cases j with
  | null => rfl
  | bool b => cases b <;> rfl
  | num n =>
    by_cases h : n = 0 <;> simp [tasksArrOf, entryListOf, jsFalsy, jsGetField, h]
  | str s =>
    by_cases h : s = "" <;> simp [tasksArrOf, entryListOf, jsFalsy, jsGetField, h]
  | arr l => rfl
  | obj fs => rfl

theorem validateResponse_error_iff (raw : String) :
    validateResponse raw = Except.error (PlanError.llmInvalid (invalidMsg raw)) ↔
      (parseLLMResponse raw = none ∨
       ∃ j, parseLLMResponse raw = some j ∧ tasksArrOf j = none) := by
  unfold validateResponse
  rcases hp : parseLLMResponse raw with _ | j
  · simp
  · rcases ht : tasksArrOf j with _ | l <;> simp [ht]

theorem run_of_validate_error (db : DB) (forDate : Int) (raw : String) (failAt : Option Nat)
    (e : PlanError) (hv : validateResponse raw = Except.error e) :
    generatePlanRun db forDate raw failAt = (db, Except.error e) := by
  unfold generatePlanRun generatePlanTxBody
  rw [hv, except_bind_error]

theorem run_not_invalid_of_validate_ok (db : DB) (forDate : Int) (raw : String)
    (failAt : Option Nat) (pr : Json × List Json) (msg : String)
    (hv : validateResponse raw = Except.ok pr) :
    (generatePlanRun db forDate raw failAt).2 ≠ Except.error (PlanError.llmInvalid msg) := by
  obtain ⟨j, ts⟩ := pr
  rcases hb : generatePlanTxBody db forDate raw failAt with eb | r
  · have hcl : eb = PlanError.badEntry ∨ eb = PlanError.injected := by
      unfold generatePlanTxBody at hb
      rw [hv, except_bind_ok] at hb
      rcases hd : decodeOutput j ts with _ | out <;> simp only [hd] at hb
      · rw [except_bind_error] at hb
        injection hb with hb
        exact Or.inl hb.symm
      · rw [except_pure_eq, except_bind_ok] at hb
        exact Or.inr (commitTx_error _ _ _ _ _ _ hb)
    unfold generatePlanRun
    rw [hb]
    intro hcon
    injection hcon with hcon
    rcases hcl with h' | h' <;> rw [h'] at hcon <;> exact PlanError.noConfusion hcon
  · unfold generatePlanRun
    rw [hb]
    intro hcon
    exact Except.noConfusion hcon

/-- C5: a generation run throws the validation error — carrying the first
500 characters of the raw model response — and commits nothing, exactly
when the raw text is unparsable (no JSON value can be parsed from the
fenced block or, failing that, from the whole trimmed text) or the parsed
value has no entry list (no `tasks` member holding an array). -/
theorem validation_gate_iff (db : DB) (forDate : Int) (raw : String) (failAt : Option Nat) :
    ((generatePlanRun db forDate raw failAt).2 = Except.error (PlanError.llmInvalid
        ("LLM did not return a valid plan with tasks. Raw response: " ++ raw.take 500)) ∧
      (generatePlanRun db forDate raw failAt).1 = db)
    ↔ (parseLLMResponse raw = none ∨
       ∃ j, parseLLMResponse raw = some j ∧ entryListOf j = none) := by
  have hmsg : "LLM did not return a valid plan with tasks. Raw response: " ++ raw.take 500 =
      invalidMsg raw := rfl
  constructor
  · rintro ⟨h, -⟩
    rcases hv : validateResponse raw with ev | pr
    · have hrun := run_of_validate_error db forDate raw failAt ev hv
      rw [hrun] at h
      injection h with h
      rw [hmsg] at h
      rw [h] at hv
      rcases (validateResponse_error_iff raw).mp hv with hp | ⟨j, hp, ht⟩
      · exact Or.inl hp
      · exact Or.inr ⟨j, hp, by rw [← tasksArrOf_eq_entryListOf]; exact ht⟩
    · exact absurd h (run_not_invalid_of_validate_ok db forDate raw failAt pr _ hv)
  · intro hr
    have hv : validateResponse raw = Except.error (PlanError.llmInvalid (invalidMsg raw)) := by
      refine (validateResponse_error_iff raw).mpr ?_
      rcases hr with hp | ⟨j, hp, hl⟩
      · exact Or.inl hp
      · exact Or.inr ⟨j, hp, by rw [tasksArrOf_eq_entryListOf]; exact hl⟩
    have hrun := run_of_validate_error db forDate raw failAt _ hv
    rw [hrun, hmsg]
    exact ⟨rfl, rfl⟩

theorem length_filter_isSome_isNone {α β : Type} (f : α → Option β) (l : List α) :
    (l.filter (fun x => (f x).isSome)).length +
      (l.filter (fun x => (f x).isNone)).length = l.length := by
  induction l with
  | nil => simp
  | cons x xs ih => rcases h : f x with _ | v <;> simp [h] <;> omega

theorem lookupCategoryId_mem (cats : List (String × String)) (name cid : String)
    (h : lookupCategoryId cats name = some cid) : ∃ pr ∈ cats, pr.2 = cid := by
  unfold lookupCategoryId at h
  rcases hf : cats.reverse.find? (fun c => c.1 = name) with _ | pr <;> rw [hf] at h
  · cases h
  · simp only [Option.map_some'] at h
    injection h with h
    exact ⟨pr, by simpa using List.mem_of_find?_eq_some hf, h⟩

theorem keptTasks_eq (ctx : Ctx) (ts : List LLMTask)
    (hids : ∀ c ∈ ctx.categories, c.2 ≠ "") :
    keptTasks ctx ts =
      ts.filter (fun t => (lookupCategoryId ctx.categories t.category).isSome) := by
  unfold keptTasks
  apply List.filter_congr
  intro t _
  rcases hl : lookupCategoryId ctx.categories t.category with _ | cid
  · simp [keptFlag, hl]
  · obtain ⟨pr, hpr, hpr2⟩ := lookupCategoryId_mem _ _ _ hl
    simp [keptFlag, hl, hpr2 ▸ hids pr hpr]

/-- C7: a validated entry whose category name is not in the enabled
category set is dropped silently — the commit still succeeds, the
reported entry count is reduced by exactly the number of dropped entries,
and every created row traces back to a kept entry or an auto-placed
event, never to a dropped entry.  (Category ids are non-empty in the
store, which the hypothesis records.) -/
theorem dropped_category_entries (db : DB) (forDate : Int) (ctx : Ctx) (out : LLMPlanOutput)
    (hids : ∀ c ∈ ctx.categories, c.2 ≠ "") :
    ∃ r, commitTx db forDate ctx out none = Except.ok r ∧
      r.taskCount + (out.tasks.filter
          (fun t => (lookupCategoryId ctx.categories t.category).isNone)).length =
        out.tasks.length + (eventsToPlace ctx.pool.events).length ∧
      r.db.tasks.length = db.tasks.length +
        (out.tasks.filter
          (fun t => (lookupCategoryId ctx.categories t.category).isSome)).length +
        (placedEvents ctx (eventsToPlace ctx.pool.events)).length ∧
      (∀ row ∈ r.db.tasks, row ∈ db.tasks ∨
        (∃ t ∈ out.tasks, (lookupCategoryId ctx.categories t.category).isSome ∧
          row.title = t.title) ∨
        ∃ ep ∈ eventsToPlace ctx.pool.events, rowMatchesEvent ep row) := by
  obtain ⟨r, hok, hpid, hcount, hmarks, hcats, hjour, hplans, hlen, hpool, hrows⟩ :=
    commitTx_none db forDate ctx out
  refine ⟨r, hok, ?_, ?_, ?_⟩
  · rw [hcount]
    have hpart := length_filter_isSome_isNone
      (fun t => lookupCategoryId ctx.categories t.category) out.tasks
    omega
  · rw [hlen, keptTasks_eq ctx out.tasks hids]
  · intro row hr
    rcases hrows row hr with h | ⟨t, htk, rowId, cid, hcid, hcne, heq⟩ | hev
    · exact Or.inl h
    · refine Or.inr (Or.inl ⟨t, List.mem_of_mem_filter htk, ?_, ?_⟩)
      · rw [hcid]; rfl
      · rw [heq]; rfl
    · exact Or.inr (Or.inr hev)

/-- C9: a committed run marks exactly the union of pool items consumed —
the title- or id-matched items of kept entries plus the auto-placed
events — and the single batched update sets `lastUsedAt` to the target
date and increments `useCount` by one for each distinct marked item,
leaving every other field (id, type, title, notes, category, schedule,
status, cooldown override) and every unmarked item unchanged. -/
theorem pool_bookkeeping (db : DB) (forDate : Int) (ctx : Ctx) (out : LLMPlanOutput)
    (r : CommitOut) (h : commitTx db forDate ctx out none = Except.ok r) :
    r.marks = taskMarks ctx out.tasks ++
      (placedEvents ctx (eventsToPlace ctx.pool.events)).map (fun ep => ep.1.id) ∧
    r.db.poolItems = db.poolItems.map (fun p =>
      if r.marks.contains p.id then
        { p with lastUsedAt := some forDate, useCount := p.useCount + 1 }
      else p) ∧
    (∀ p ∈ db.poolItems, p.id ∈ r.marks →
      { p with lastUsedAt := some forDate, useCount := p.useCount + 1 } ∈ r.db.poolItems) ∧
    (∀ p ∈ db.poolItems, p.id ∉ r.marks → p ∈ r.db.poolItems) := by
  obtain ⟨r', hok, hpid, hcount, hmarks, hcats, hjour, hplans, hlen, hpool, hrows⟩ :=
    commitTx_none db forDate ctx out
  rw [h] at hok
  injection hok with hok
  subst hok
  refine ⟨hmarks, hpool, ?_, ?_⟩
  · intro p hp hid
    rw [hpool]
    have hm := List.mem_map_of_mem (fun p =>
      if r.marks.contains p.id then
        { p with lastUsedAt := some forDate, useCount := p.useCount + 1 }
      else p) hp
    simpa [hid] using hm
  · intro p hp hid
    rw [hpool]
    have hm := List.mem_map_of_mem (fun p =>
      if r.marks.contains p.id then
        { p with lastUsedAt := some forDate, useCount := p.useCount + 1 }
      else p) hp
    simpa [hid] using hm

theorem decodeOutput_nil_tasks (j : Json) (out : LLMPlanOutput)
    (hd : decodeOutput j [] = some out) : out.tasks = [] := by
  unfold decodeOutput at hd
  rcases h1 : jsOptStr j "capacity_notes" with _ | a <;> rw [h1] at hd
  · exact Option.noConfusion hd
  · rcases h2 : jsOptStr j "mental_state_notes" with _ | b <;> rw [h2] at hd
    · exact Option.noConfusion hd
    · simp only [List.mapM] at hd
      injection hd with hd
      rw [← hd]
      rfl

/-- C10: a parsed response whose `tasks` field is an empty array passes
validation, and the committed plan consists solely of auto-placed event
entries — each carrying the event's own fixed time and priority 1 — with
the reported `taskCount` equal to the number of events to place. -/
theorem empty_tasks_plan (db : DB) (forDate : Int) (raw : String) (j : Json)
    (out : LLMPlanOutput)
    (hp : parseLLMResponse raw = some j)
    (ht : tasksArrOf j = some [])
    (hd : decodeOutput j [] = some out) :
    ∃ r, generatePlanTxBody db forDate raw none = Except.ok r ∧
      generatePlanRun db forDate raw none = (r.db, Except.ok (r.planId, r.taskCount)) ∧
      r.taskCount = (eventsToPlace (gatherCtx db forDate).pool.events).length ∧
      r.db.tasks.length = db.tasks.length +
        (placedEvents (gatherCtx db forDate)
          (eventsToPlace (gatherCtx db forDate).pool.events)).length ∧
      (∀ row ∈ r.db.tasks, row ∈ db.tasks ∨
        ∃ ep ∈ eventsToPlace (gatherCtx db forDate).pool.events, rowMatchesEvent ep row) := by
  have htasks : out.tasks = [] := decodeOutput_nil_tasks j out hd
  have hv : validateResponse raw = Except.ok (j, []) := by
    simp [validateResponse, hp, ht]
  obtain ⟨r, hok, hpid, hcount, hmarks, hcats, hjour, hplans, hlen, hpool, hrows⟩ :=
    commitTx_none db forDate (gatherCtx db forDate) out
  have hbody : generatePlanTxBody db forDate raw none = Except.ok r := by
    unfold generatePlanTxBody
    rw [hv, except_bind_ok]
    simp only [hd, except_pure_eq, except_bind_ok]
    exact hok
  refine ⟨r, hbody, ?_, ?_, ?_, ?_⟩
  · unfold generatePlanRun
    rw [hbody]
  · rw [hcount, htasks]
    simp
  · rw [hlen, htasks]
    simp [keptTasks]
  · intro row hr
    rcases hrows row hr with h | ⟨t, htk, _⟩ | hev
    · exact Or.inl h
    · rw [htasks] at htk
      simp [keptTasks] at htk
    · exact Or.inr hev

/-! ## Claim C1: atomicity of the plan commit -/

/-- C1: the plan commit is atomic.  Whenever the transaction body throws —
from validation, from a decode fault, or from a persistence failure
injected at any write, including after entry creation but before the
pool-usage update — the store visible after the run is exactly the
original store: no DailyPlan row, no Task row, and no pool-item update
from that run is ever visible. -/
theorem generate_plan_atomic (db : DB) (forDate : Int) (raw : String)
    (failAt : Option Nat) (e : PlanError)
    (h : (generatePlanRun db forDate raw failAt).2 = Except.error e) :
    (generatePlanRun db forDate raw failAt).1 = db := by
  unfold generatePlanRun at *
  cases hb : generatePlanTxBody db forDate raw failAt <;> simp [hb] at h ⊢

/-- An event pool item scheduled at 10:00 on the epoch day. -/
def dentistItem : PoolItem :=
  { id := "e1", type := PoolType.event, title := "Dentist",
    categoryId := some "c1", scheduledAt := some 36000000 }

/-- A store with one pool task, one same-day event, and one enabled
category, used by concrete commit scenarios. -/
def sampleDb : DB :=
  { poolItems := [walkItem, dentistItem]
    categories := [ { id := "c1", name := "Exercise" } ] }

/-- A model response selecting the pool task by (case/whitespace
insensitive) title. -/
def sampleRaw : String :=
  "\x7b\"tasks\": [\x7b\"category\": \"Exercise\", \"title\": \"walk \"\x7d]\x7d"

/-- Witness for C1: with the injected persistence failure at write 3 —
the pool-usage update, issued after the plan row and both schedule
entries were created — the run fails and the visible store equals the
original store; without injection the same run commits a plan with two
entries. -/
theorem generate_plan_atomic_witness :
    (generatePlanRun sampleDb 0 sampleRaw (some 3)).2 = Except.error PlanError.injected ∧
    (generatePlanRun sampleDb 0 sampleRaw none).2 = Except.ok (0, 2) ∧
    (generatePlanRun sampleDb 0 sampleRaw (some 3)).1 = sampleDb :=
  ⟨rfl, rfl, generate_plan_atomic sampleDb 0 sampleRaw (some 3) PlanError.injected rfl⟩

/-! ## Concrete witnesses for C7, C9 and C10 -/

/-- A store holding only one enabled category. -/
def dropDb : DB :=
  { categories := [{ id := "c1", name := "Exercise" }] }

/-- Context with one enabled category and an empty candidate pool. -/
def dropCtx : Ctx :=
  { capacityScore := "medium"
    categories := [("Exercise", "c1")]
    pool := { tasks := [], aspirations := [], events := [] } }

/-- Two model entries, the second naming a category that does not exist. -/
def dropOut : LLMPlanOutput :=
  { tasks :=
      [ { category := "Exercise", title := "Walk" },
        { category := "Unknown", title := "Skip me" } ] }

/-- Witness for C7: of the two model entries, only the known-category one
is committed — the reported count is 1 (reduced by exactly the one
dropped entry) and exactly one row is created. -/
theorem dropped_category_entries_witness :
    ∃ r, commitTx dropDb 0 dropCtx dropOut none = Except.ok r ∧
      r.taskCount = 1 ∧ r.db.tasks.length = 1 ∧
      r.taskCount + (dropOut.tasks.filter
          (fun t => (lookupCategoryId dropCtx.categories t.category).isNone)).length =
        dropOut.tasks.length + (eventsToPlace dropCtx.pool.events).length := by
  obtain ⟨r, hok, hA, hB, hC⟩ :=
    dropped_category_entries dropDb 0 dropCtx dropOut (by decide)
  refine ⟨r, hok, ?_, hB.trans rfl, hA⟩
  have h1 : (dropOut.tasks.filter
      (fun t => (lookupCategoryId dropCtx.categories t.category).isNone)).length = 1 := rfl
  have h2 : dropOut.tasks.length + (eventsToPlace dropCtx.pool.events).length = 2 := rfl
  omega

/-- Store for the bookkeeping scenario: one pool task and one same-day
event. -/
def bookDb : DB :=
  { poolItems := [walkItem, dentistItem]
    categories := [ { id := "c1", name := "Exercise" } ] }

/-- Context with the pool task as a candidate and the event placed on the
target date. -/
def bookCtx : Ctx :=
  { capacityScore := "medium"
    categories := [("Exercise", "c1")]
    pool := { tasks := [walkItem], aspirations := [], events := [dentistItem] } }

/-- A model response with one entry matching the pool task by title. -/
def bookOut : LLMPlanOutput :=
  { tasks := [ { category := "Exercise", title := "walk " } ] }

/-- Witness for C9: the matched task and the auto-placed event are the
marked union; the batched update stamps both with the target date and
increments each use count by exactly one, leaving all other fields
unchanged. -/
theorem pool_bookkeeping_witness :
    ∃ r, commitTx bookDb 0 bookCtx bookOut none = Except.ok r ∧
      r.marks = ["p1", "e1"] ∧
      r.db.poolItems =
        [ { walkItem with lastUsedAt := some 0, useCount := 1 },
          { dentistItem with lastUsedAt := some 0, useCount := 1 } ] := by
  obtain ⟨r, hok, -, -, -, -, -, -, -, -, -⟩ := commitTx_none bookDb 0 bookCtx bookOut
  obtain ⟨h1, h2, h3, h4⟩ := pool_bookkeeping bookDb 0 bookCtx bookOut r hok
  rw [h1] at h2
  exact ⟨r, hok, h1.trans rfl, h2.trans rfl⟩

/-- Store for the empty-entry-list scenario: one same-day event and one
enabled category, no tasks or aspirations. -/
def emptyDb : DB :=
  { poolItems := [dentistItem]
    categories := [ { id := "c1", name := "Exercise" } ] }

/-- A model response whose entry list is an empty array. -/
def emptyRaw : String := "\x7b\"tasks\": []\x7d"

/-- Witness for C10: the empty entry list passes validation and the
committed plan holds exactly the one auto-placed event entry, with
`taskCount` 1. -/
theorem empty_tasks_plan_witness :
    (generatePlanRun emptyDb 0 emptyRaw none).2 = Except.ok (0, 1) ∧
    (∃ r, generatePlanTxBody emptyDb 0 emptyRaw none = Except.ok r ∧
      generatePlanRun emptyDb 0 emptyRaw none = (r.db, Except.ok (r.planId, r.taskCount)) ∧
      r.taskCount = (eventsToPlace (gatherCtx emptyDb 0).pool.events).length ∧
      r.db.tasks.length = emptyDb.tasks.length +
        (placedEvents (gatherCtx emptyDb 0)
          (eventsToPlace (gatherCtx emptyDb 0).pool.events)).length ∧
      (∀ row ∈ r.db.tasks, row ∈ emptyDb.tasks ∨
        ∃ ep ∈ eventsToPlace (gatherCtx emptyDb 0).pool.events, rowMatchesEvent ep row)) :=
  ⟨rfl, empty_tasks_plan emptyDb 0 emptyRaw (Json.obj [("tasks", Json.arr [])])
    { tasks := [] } rfl rfl rfl⟩
